import Mathlib

/-!
Verification of the milestoner repository's core logic against its
natural-language specification.

Shallow embedding notes:
* JSON store files are modelled as `Option StoreDoc` (`none` = file absent);
  `_read_json` returns the empty document for an absent file.
* Python `datetime` values that are only compared / formatted are modelled by
  `PyDateTime` (year, month, day, hour, minute, second, microsecond) with
  lexicographic comparison, matching Python datetime ordering.
* ISO strings are compared with Lean's lexicographic `String` order, matching
  Python string comparison for the ASCII ISO strings involved.
* `datetime.now()` and the optimal-time advisor output are environment inputs
  (the code reads them from the clock); they are passed explicitly.
-/

namespace Milestoner

/-- A scheduled post record, as stored in `scheduled-posts.json`
(fields written by `schedule_post`; `posted_at` / `url` are added by
`mark_post_as_posted`). -/
structure Post where
  id : String
  content : String
  platform : String
  scheduled_for : String
  created_at : String
  status : String
  posted_at : Option String := none
  url : Option String := none
deriving DecidableEq, Repr

/-- The JSON document held in `scheduled-posts.json`: a dict that may or may
not have a `"posts"` key. -/
structure StoreDoc where
  posts : Option (List Post)
deriving DecidableEq, Repr

/-- Model of `_read_json` (config/store.py): returns the empty dict when the file does
not exist. -/
def read_json (file : Option StoreDoc) : StoreDoc :=
  match file with
  | none => { posts := none }
  | some d => d

/-- Model of `data.get("posts", [])` applied to the store file. -/
def storePosts (file : Option StoreDoc) : List Post :=
  (read_json file).posts.getD []

/-- Platform registry (platforms/registry.py together with
`BlueskyPlatform.character_limit`): name ↦ character limit. -/
def PLATFORMS : List (String × Nat) := [("bluesky", 300)]

/-- Model of `list_platforms` (platforms/registry.py). -/
def list_platforms : List String := PLATFORMS.map Prod.fst

/-- Lexicographic `<` on character lists by code point, which is exactly how
Python compares strings. -/
def chListLt : List Char → List Char → Bool
  | [], [] => false
  | [], _ :: _ => true
  | _ :: _, [] => false
  | a :: as, b :: bs => if a < b then true else if b < a then false else chListLt as bs

/-- Python string `a <= b` (code-point lexicographic). -/
def pyStrLe (a b : String) : Bool := !(chListLt b.data a.data)

/-- Model of `get_scheduled_posts` (tools/schedule_post.py): reads the store and keeps
posts whose `scheduled_for` is not in the past or whose status is
`"posted"`.  `now` is `datetime.now().isoformat()`. -/
def get_scheduled_posts (file : Option StoreDoc) (now : String) : List Post :=
  (storePosts file).filter (fun p => pyStrLe now p.scheduled_for || p.status == "posted")

/-- Result of `schedule_post`. -/
inductive ScheduleResult where
  | ok (post : Post) (message : String)
  | err (error : String)
deriving DecidableEq, Repr

/-- Whether a `ScheduleResult` has `"success": True`. -/
def ScheduleResult.success : ScheduleResult → Bool
  | .ok _ _ => true
  | .err _ => false

/-- Environment inputs of `schedule_post` that the Python code reads from the
config file, the clock and the optimal-time advisor. -/
structure Env where
  /-- Model of `get_default_platform()`. -/
  defaultPlatform : String
  /-- Model of `get_optimal_times()["recommendations"]` projected to the `"datetime"`
  field, in order. -/
  recommendations : List String
  /-- Model of `datetime.now().strftime(...)` used as the new post id. -/
  nowId : String
  /-- Model of `datetime.now().isoformat()` used as `created_at`. -/
  nowIso : String
  /-- Whether `datetime.fromisoformat(s.replace("Z", "+00:00"))` succeeds. -/
  isoValid : String → Bool

/-- The tail of `schedule_post` once a scheduled time is fixed: build the
record and append it to the store. -/
def schedule_append (env : Env) (content platform sf : String)
    (file : Option StoreDoc) : ScheduleResult × Option StoreDoc :=
  let post : Post :=
    { id := env.nowId, content := content, platform := platform,
      scheduled_for := sf, created_at := env.nowIso, status := "scheduled" }
  let posts := storePosts file
  (.ok post ("Post scheduled for " ++ sf), some { posts := some (posts ++ [post]) })

/-- Model of `schedule_post` (tools/schedule_post.py). -/
def schedule_post (env : Env) (content : String) (scheduled_for : Option String)
    (platform? : Option String) (use_optimal_time : Bool)
    (file : Option StoreDoc) : ScheduleResult × Option StoreDoc :=
  let platform := platform?.getD env.defaultPlatform
  match PLATFORMS.lookup platform with
  | none =>
      (.err ("Unknown platform: " ++ platform ++ ". Available: "
        ++ String.intercalate ", " list_platforms), file)
  | some limit =>
    if limit < content.length then
      (.err ("Content exceeds " ++ toString limit ++ " character limit"), file)
    else if use_optimal_time || scheduled_for.isNone then
      match env.recommendations with
      | [] => (.err "No optimal times available. Please specify a time.", file)
      | r :: _ => schedule_append env content platform r file
    else
      let sf := scheduled_for.getD ""
      if env.isoValid sf then schedule_append env content platform sf file
      else (.err ("Invalid datetime format: " ++ sf ++ ". Use ISO format."), file)

/-- Result of `list_scheduled_posts`. -/
structure ListPostsResult where
  pending_posts : List Post
  count : Nat
  next_optimal_times : List String
deriving DecidableEq, Repr

/-- Model of `list_scheduled_posts` (tools/schedule_post.py). -/
def list_scheduled_posts (file : Option StoreDoc) (now : String)
    (recommendations : List String) : ListPostsResult :=
  let pending := (get_scheduled_posts file now).filter (fun p => p.status == "scheduled")
  { pending_posts := pending, count := pending.length,
    next_optimal_times := recommendations.take 3 }

/-- Result of `cancel_scheduled_post` / `mark_post_as_posted`. -/
inductive OpResult where
  | ok (message : String)
  | err (error : String)
deriving DecidableEq, Repr

/-- Whether an `OpResult` has `"success": True`. -/
def OpResult.success : OpResult → Bool
  | .ok _ => true
  | .err _ => false

/-- The `for post in posts: if post.get("id") == post_id: ...` loop: update
the first record with the given id, or return `none` when no record matches. -/
def update_first (post_id : String) (f : Post → Post) : List Post → Option (List Post)
  | [] => none
  | p :: rest =>
    if p.id == post_id then some (f p :: rest)
    else (update_first post_id f rest).map (p :: ·)

/-- The mutation `post["status"] = "cancelled"` performs. -/
def cancelUpdater (p : Post) : Post := { p with status := "cancelled" }

/-- Model of `cancel_scheduled_post` (tools/schedule_post.py). -/
def cancel_scheduled_post (post_id : String) (file : Option StoreDoc) :
    OpResult × Option StoreDoc :=
  let posts := storePosts file
  match update_first post_id cancelUpdater posts with
  | some posts2 => (.ok ("Post " ++ post_id ++ " cancelled"), some { posts := some posts2 })
  | none => (.err ("Post " ++ post_id ++ " not found"), file)

/-- Model of `get_due_posts` (tools/schedule_post.py). -/
def get_due_posts (file : Option StoreDoc) (now : String) : List Post :=
  (storePosts file).filter (fun p => p.status == "scheduled" && pyStrLe p.scheduled_for now)

/-- The mutations `post["status"] = "posted"`, `post["posted_at"] = ...`,
`post["url"] = ...` perform. -/
def markUpdater (url nowIso : String) (p : Post) : Post :=
  { p with status := "posted", posted_at := some nowIso, url := some url }

/-- Model of `mark_post_as_posted` (tools/schedule_post.py).  `nowIso` is
`datetime.now().isoformat()` stamped as `posted_at`. -/
def mark_post_as_posted (post_id url nowIso : String) (file : Option StoreDoc) :
    OpResult × Option StoreDoc :=
  let posts := storePosts file
  match update_first post_id (markUpdater url nowIso) posts with
  | some posts2 => (.ok "", some { posts := some posts2 })
  | none => (.err ("Post " ++ post_id ++ " not found"), file)

/-! ### Optimal-time advisor (scheduling.py) -/

/-- Model of `OPTIMAL_TIMES` (scheduling.py): weekday (0 = Monday) ↦ list of
(hour, minute, description). -/
def OPTIMAL_TIMES : List (Nat × List (Nat × Nat × String)) :=
  [ (0, [(13, 0, "Monday afternoon - 4-5x higher engagement")]),
    (1, [(10, 0, "Tuesday mid-morning"), (12, 0, "Tuesday lunchtime")]),
    (2, [(10, 0, "Wednesday 10 AM - peak engagement time"),
         (12, 0, "Wednesday noon"),
         (18, 0, "Wednesday evening")]),
    (3, [(10, 0, "Thursday morning"), (17, 0, "Thursday evening")]),
    (4, [(10, 0, "Friday morning"), (17, 0, "Friday evening")]),
    (5, [(11, 0, "Saturday late morning"), (15, 0, "Saturday afternoon")]),
    (6, [(11, 0, "Sunday late morning"), (15, 0, "Sunday afternoon")]) ]

/-- Model of `AVOID_TIMES` (scheduling.py): (start hour, end hour, reason). -/
def AVOID_TIMES : List (Nat × Nat × String) :=
  [ (23, 6, "Late night to early morning - lowest engagement"),
    (13, 16, "Weekday afternoons - deep work block") ]

/-- The dict returned by `_assess_current_time`. -/
structure Assessment where
  quality : String
  score : Nat
  reason : String
  suggestion : String
deriving DecidableEq, Repr

/-- Model of `_assess_current_time` (scheduling.py), as a function of `now.hour` and
`now.weekday()`. -/
def assess_current_time (hour weekday : Nat) : Assessment :=
  match AVOID_TIMES.find? (fun t => t.1 ≤ hour && hour < t.2.1) with
  | some (_, _, reason) =>
      { quality := "poor", score := 2, reason := reason,
        suggestion := "Consider waiting for a better time" }
  | none =>
    let today_times := (OPTIMAL_TIMES.lookup weekday).getD []
    match today_times.find? (fun t => ((hour : Int) - t.1).natAbs ≤ 1) with
    | some (opt_hour, _, desc) =>
        { quality := if hour = opt_hour then "excellent" else "good",
          score := if hour = opt_hour then 9 else 7,
          reason := desc, suggestion := "Great time to post!" }
    | none =>
        { quality := "okay", score := 5,
          reason := "Not peak engagement time, but acceptable",
          suggestion :=
            "Posting now is fine, but optimal times may get more engagement" }

/-! ### Git history (git/history.py) -/

/-- A Python `datetime` value, kept as its component tuple.  Python compares
datetimes lexicographically on these components. -/
structure PyDateTime where
  year : Int
  month : Nat
  day : Nat
  hour : Nat := 0
  minute : Nat := 0
  second : Nat := 0
  microsecond : Nat := 0
deriving DecidableEq, Repr

/-- The comparison key of a datetime. -/
def PyDateTime.key (d : PyDateTime) : List Int :=
  [d.year, d.month, d.day, d.hour, d.minute, d.second, d.microsecond]

/-- Lexicographic `<` on equal-length integer lists. -/
def keyLt : List Int → List Int → Bool
  | [], [] => false
  | [], _ :: _ => true
  | _ :: _, [] => false
  | a :: as, b :: bs => if a < b then true else if b < a then false else keyLt as bs

/-- Python `datetime` strict comparison. -/
def PyDateTime.ltB (a b : PyDateTime) : Bool := keyLt a.key b.key

/-- Zero-pad a numeral to two digits. -/
def pad2 (n : Nat) : String := if n < 10 then "0" ++ toString n else toString n

/-- Zero-pad a year to four digits. -/
def pad4 (n : Int) : String :=
  if 0 ≤ n ∧ n < 10 then "000" ++ toString n
  else if 10 ≤ n ∧ n < 100 then "00" ++ toString n
  else if 100 ≤ n ∧ n < 1000 then "0" ++ toString n
  else toString n

/-- Model of `date.strftime("%Y-%m-%d")`. -/
def dateKey (d : PyDateTime) : String :=
  pad4 d.year ++ "-" ++ pad2 d.month ++ "-" ++ pad2 d.day

/-- Model of `CommitInfo` (git/history.py). -/
structure CommitInfo where
  hash : String
  short_hash : String
  message : String
  author : String
  date : PyDateTime
  files_changed : List String
  insertions : Nat
  deletions : Nat
deriving DecidableEq, Repr

/-- One step of the `group_commits_by_day` loop: append the commit to the
bucket of `key` (Python dicts keep insertion order), creating the bucket at
the end when the key is new. -/
def addToGroup (groups : List (String × List CommitInfo)) (key : String)
    (c : CommitInfo) : List (String × List CommitInfo) :=
  match groups with
  | [] => [(key, [c])]
  | (k, l) :: rest =>
    if k = key then (k, l ++ [c]) :: rest else (k, l) :: addToGroup rest key c

/-- Model of `group_commits_by_day` (git/history.py).  The Python dict is modelled as
an insertion-ordered association list. -/
def group_commits_by_day (commits : List CommitInfo) :
    List (String × List CommitInfo) :=
  commits.foldl (fun groups c => addToGroup groups (dateKey c.date) c) []

/-- The `date_range` sub-dict of the activity summary. -/
structure DateRange where
  oldest : PyDateTime
  newest : PyDateTime
deriving DecidableEq, Repr

/-- The dict returned by `get_activity_summary`.  `datetime.isoformat()` is
injective and order-preserving, so the range keeps the datetimes themselves. -/
structure ActivitySummary where
  total_commits : Nat
  files_changed : List String
  total_insertions : Nat
  total_deletions : Nat
  date_range : Option DateRange
deriving DecidableEq, Repr

/-- Python string `a <= b` (code-point lexicographic; equal-length prefix
rule), as a proposition.  This is the order `sorted(...)` uses. -/
def strLeProp (a b : String) : Prop := pyStrLe a b = true

instance : DecidableRel strLeProp := fun a b =>
  instDecidableEqBool (pyStrLe a b) true

/-- The `all_files.update(...)` loop body: Python `set` update, modelled as a
duplicate-free list grown in insertion order (the order is irrelevant: the
result is sorted afterwards). -/
def setUpdate (s : List String) (new : List String) : List String :=
  new.foldl (fun acc f => if f ∈ acc then acc else acc ++ [f]) s

/-- One iteration of the `get_activity_summary` accumulation loop. -/
def summaryStep (acc : List String × Nat × Nat) (commit : CommitInfo) :
    List String × Nat × Nat :=
  (setUpdate acc.1 commit.files_changed,
   acc.2.1 + commit.insertions, acc.2.2 + commit.deletions)

/-- Model of `get_activity_summary` (git/history.py). -/
def get_activity_summary (commits : List CommitInfo) : ActivitySummary :=
  match commits with
  | [] =>
      { total_commits := 0, files_changed := [], total_insertions := 0,
        total_deletions := 0, date_range := none }
  | c :: rest =>
    let acc := (c :: rest).foldl summaryStep ([], 0, 0)
    { total_commits := (c :: rest).length,
      files_changed := List.insertionSort strLeProp acc.1,
      total_insertions := acc.2.1,
      total_deletions := acc.2.2,
      date_range := some
        { oldest := ((c :: rest).getLast (List.cons_ne_nil c rest)).date,
          newest := c.date } }

/-! ### `parse_since` (git/history.py) and the Python string helpers it uses.
ASCII semantics, which covers every time-window string the tool receives. -/

/-- Model of `str.lower()` on a character. -/
def pyLowerChar (c : Char) : Char :=
  if 'A' ≤ c ∧ c ≤ 'Z' then Char.ofNat (c.toNat + 32) else c

/-- Model of `str.lower()`. -/
def pyLower (s : String) : String := ⟨s.data.map pyLowerChar⟩

/-- Model of `str.strip()`. -/
def pyStrip (s : String) : String :=
  ⟨((s.data.dropWhile Char.isWhitespace).reverse.dropWhile Char.isWhitespace).reverse⟩

/-- Model of `str.rstrip("s")`: remove every trailing `'s'`. -/
def pyRstripS (s : String) : String :=
  ⟨(s.data.reverse.dropWhile (fun c => c = 's')).reverse⟩

/-- Model of `str.split()` on a character list: maximal runs of non-whitespace.
`cur` holds the reversed current word. -/
def pyWordsAux (cur : List Char) : List Char → List String
  | [] => if cur = [] then [] else [String.mk cur.reverse]
  | c :: rest =>
    if c.isWhitespace then
      if cur = [] then pyWordsAux [] rest
      else String.mk cur.reverse :: pyWordsAux [] rest
    else pyWordsAux (c :: cur) rest

/-- Model of `str.split()` with no argument: split on whitespace runs, no empty parts. -/
def pySplit (s : String) : List String := pyWordsAux [] s.data

/-- The value of a digit run. -/
def digitsVal (cs : List Char) : Int :=
  cs.foldl (fun a c => a * 10 + (c.toNat - 48 : Int)) 0

/-- Python `int(str)`: optional sign then decimal digits, `None` on
`ValueError`.  (Python also allows `_` digit separators, which no time-window
string uses.) -/
def pyInt (s : String) : Option Int :=
  let stripped :=
    match s.data with
    | '-' :: rest => (true, rest)
    | '+' :: rest => (false, rest)
    | cs => (false, cs)
  if stripped.2 ≠ [] ∧ stripped.2.all Char.isDigit then
    some (if stripped.1 then -digitsVal stripped.2 else digitsVal stripped.2)
  else none

/-- Seconds in a day, the unit of `timedelta` arithmetic here. -/
def daySecs : Int := 86400

/-- Model of `parse_since` (git/history.py), with datetimes as epoch seconds: `now`
in, cutoff out.  `timedelta(weeks=n)` is `7 n` days; months are `30 n` days;
hours are `3600 n` seconds; every failed parse falls through to 7 days. -/
def parse_since (since : String) (now : Int) : Int :=
  let parts := pySplit (pyStrip (pyLower since))
  match parts with
  | [a, u] =>
    match pyInt a with
    | some amount =>
      let unit := pyRstripS u
      if unit = "day" then now - amount * daySecs
      else if unit = "week" then now - amount * 7 * daySecs
      else if unit = "month" then now - amount * 30 * daySecs
      else if unit = "hour" then now - amount * 3600
      else now - 7 * daySecs
    | none => now - 7 * daySecs
  | _ => now - 7 * daySecs

/-- Whether `parse_since` succeeds in parsing (rather than falling back to
the 7-day default): two whitespace-separated parts, an integer amount, and a
recognised unit after plural-stripping. -/
def parse_since_ok (since : String) : Bool :=
  match pySplit (pyStrip (pyLower since)) with
  | [a, u] =>
    match pyInt a with
    | some _ =>
      let unit := pyRstripS u
      unit = "day" || unit = "week" || unit = "month" || unit = "hour"
    | none => false
  | _ => false

/-! ### Concrete records used to instantiate the theorems -/

/-- A scheduled post used as concrete test data. -/
def pWitness : Post :=
  { id := "20250101000000000000", content := "hello", platform := "bluesky",
    scheduled_for := "2030-01-15T10:00:00", created_at := "2025-01-01T00:00:00",
    status := "scheduled" }

/-- An already-posted record. -/
def pPosted : Post :=
  { id := "1", content := "done", platform := "bluesky",
    scheduled_for := "2025-01-01T00:00:00", created_at := "2024-12-31T00:00:00",
    status := "posted" }

/-- An already-cancelled record. -/
def pCancelled : Post :=
  { id := "1", content := "dropped", platform := "bluesky",
    scheduled_for := "2025-01-01T00:00:00", created_at := "2024-12-31T00:00:00",
    status := "cancelled" }

/-- A concrete environment for `schedule_post`. -/
def envWitness : Env :=
  { defaultPlatform := "bluesky",
    recommendations := ["2025-01-15T10:00:00-05:00"],
    nowId := "20250101000000000000",
    nowIso := "2025-01-01T00:00:00",
    isoValid := fun _ => true }

/-- An environment whose advisor yields no recommendation. -/
def envNoRecs : Env :=
  { defaultPlatform := "bluesky",
    recommendations := [],
    nowId := "20250101000000000000",
    nowIso := "2025-01-01T00:00:00",
    isoValid := fun _ => true }

/-- The record `schedule_post` builds in the `envWitness` environment when it
takes the advisor's first recommendation. -/
def postW : Post :=
  { id := "20250101000000000000", content := "hello", platform := "bluesky",
    scheduled_for := "2025-01-15T10:00:00-05:00",
    created_at := "2025-01-01T00:00:00", status := "scheduled" }

/-- A commit dated 2024-01-01. -/
def cJan1 : CommitInfo :=
  { hash := "a1b2c3d", short_hash := "a1b2c3d", message := "first",
    author := "ann", date := { year := 2024, month := 1, day := 1 },
    files_changed := ["b.py", "a.py"], insertions := 1, deletions := 2 }

/-- A commit dated 2024-01-05, listed after `cJan1` (so the pair is not in
newest-first order). -/
def cJan5 : CommitInfo :=
  { hash := "e4f5a6b", short_hash := "e4f5a6b", message := "second",
    author := "bob", date := { year := 2024, month := 1, day := 5 },
    files_changed := ["a.py", "c.py"], insertions := 3, deletions := 4 }

/-! ## Helper lemmas -/

/-- When no record has the given id, the update loop finds nothing. -/
theorem update_first_eq_none {post_id : String} {f : Post → Post} {posts : List Post}
    (h : ∀ p ∈ posts, p.id ≠ post_id) : update_first post_id f posts = none := by
  induction posts with
  | nil => rfl
  | cons p rest ih =>
    have h1 : (p.id == post_id) = false := by
      simpa using h p (List.mem_cons_self p rest)
    simp [update_first, h1, ih fun q hq => h q (List.mem_cons_of_mem _ hq)]

end Milestoner

namespace Milestoner

/-- Lemma: `chListLt` never holds reflexively. -/
theorem chListLt_irrefl (a : List Char) : chListLt a a = false := by
  induction a with
  | nil => rfl
  | cons c rest ih => simp [chListLt, ih, lt_irrefl]

/-- Lemma: `chListLt` is asymmetric. -/
theorem chListLt_asymm : ∀ a b, chListLt a b = true → chListLt b a = false := by
  intro a
  induction a with
  | nil =>
    intro b h
    cases b with
    | nil => exact absurd h (by simp [chListLt])
    | cons d bs => rfl
  | cons c as ih =>
    intro b h
    cases b with
    | nil => exact absurd h (by simp [chListLt])
    | cons d bs =>
      simp only [chListLt] at h ⊢
      by_cases hcd : c < d
      · simp [asymm hcd, hcd]
      · by_cases hdc : d < c
        · rw [if_neg hcd, if_pos hdc] at h
          exact absurd h (by simp)
        · rw [if_neg hcd, if_neg hdc] at h
          simp [hdc, hcd, ih bs h]

/-- Two lists neither of which is `chListLt` the other are equal. -/
theorem chListLt_connex : ∀ a b, chListLt a b = false → chListLt b a = false →
    a = b := by
  intro a
  induction a with
  | nil =>
    intro b h1 _
    cases b with
    | nil => rfl
    | cons d bs => exact absurd h1 (by simp [chListLt])
  | cons c as ih =>
    intro b h1 h2
    cases b with
    | nil => exact absurd h2 (by simp [chListLt])
    | cons d bs =>
      simp only [chListLt] at h1 h2
      by_cases hcd : c < d
      · rw [if_pos hcd] at h1
        exact absurd h1 (by simp)
      · by_cases hdc : d < c
        · rw [if_pos hdc] at h2
          exact absurd h2 (by simp)
        · rw [if_neg hcd, if_neg hdc] at h1
          rw [if_neg hdc, if_neg hcd] at h2
          have hcdeq : c = d := le_antisymm (not_lt.mp hdc) (not_lt.mp hcd)
          rw [hcdeq, ih bs h1 h2]

/-- Lemma: `chListLt` is transitive. -/
theorem chListLt_trans : ∀ a b c, chListLt a b = true → chListLt b c = true →
    chListLt a c = true := by
  intro a
  induction a with
  | nil =>
    intro b c h1 h2
    cases b with
    | nil => exact absurd h1 (by simp [chListLt])
    | cons y bs =>
      cases c with
      | nil => exact absurd h2 (by simp [chListLt])
      | cons z cs => simp [chListLt]
  | cons x as ih =>
    intro b c h1 h2
    cases b with
    | nil => exact absurd h1 (by simp [chListLt])
    | cons y bs =>
      cases c with
      | nil => exact absurd h2 (by simp [chListLt])
      | cons z cs =>
        simp only [chListLt] at h1 h2 ⊢
        by_cases hxy : x < y
        · by_cases hyz : y < z
          · simp [lt_trans hxy hyz]
          · by_cases hzy : z < y
            · rw [if_neg hyz, if_pos hzy] at h2
              exact absurd h2 (by simp)
            · have : y = z := le_antisymm (not_lt.mp hzy) (not_lt.mp hyz)
              simp [this ▸ hxy]
        · by_cases hyx : y < x
          · rw [if_neg hxy, if_pos hyx] at h1
            exact absurd h1 (by simp)
          · have hxyeq : x = y := le_antisymm (not_lt.mp hyx) (not_lt.mp hxy)
            rw [if_neg hxy, if_neg hyx] at h1
            by_cases hyz : y < z
            · simp [hxyeq ▸ hyz]
            · by_cases hzy : z < y
              · rw [if_neg hyz, if_pos hzy] at h2
                exact absurd h2 (by simp)
              · rw [if_neg hyz, if_neg hzy] at h2
                have hyzeq : y = z := le_antisymm (not_lt.mp hzy) (not_lt.mp hyz)
                subst hxyeq
                subst hyzeq
                rw [if_neg (lt_irrefl x), if_neg (lt_irrefl x)]
                exact ih bs cs h1 h2

/-- Python string `<=` is total. -/
theorem pyStrLe_total (a b : String) : strLeProp a b ∨ strLeProp b a := by
  unfold strLeProp pyStrLe
  by_cases h1 : chListLt b.data a.data = true
  · right
    simp [chListLt_asymm _ _ h1]
  · left
    simp [Bool.not_eq_true] at h1
    simp [h1]

/-- Python string `<=` is transitive. -/
theorem pyStrLe_trans {a b c : String} (h1 : strLeProp a b) (h2 : strLeProp b c) :
    strLeProp a c := by
  unfold strLeProp pyStrLe at h1 h2 ⊢
  simp only [Bool.not_eq_true'] at h1 h2 ⊢
  cases hca : chListLt c.data a.data with
  | false => rfl
  | true =>
    cases hbc : chListLt b.data c.data with
    | true =>
      have hba := chListLt_trans _ _ _ hbc hca
      exact absurd hba (by simp [h1])
    | false =>
      have heq : b.data = c.data := chListLt_connex _ _ hbc h2
      rw [← heq] at hca
      exact absurd hca (by simp [h1])

/-- Membership in a Python set after `update`. -/
theorem mem_setUpdate (new : List String) : ∀ (s : List String) (f : String),
    f ∈ setUpdate s new ↔ f ∈ s ∨ f ∈ new := by
  induction new with
  | nil => intro s f; simp [setUpdate]
  | cons x rest ih =>
    intro s f
    have hstep : setUpdate s (x :: rest) =
        setUpdate (if x ∈ s then s else s ++ [x]) rest := rfl
    rw [hstep, ih]
    by_cases hx : x ∈ s
    · rw [if_pos hx]
      constructor
      · rintro (h | h)
        · exact Or.inl h
        · exact Or.inr (List.mem_cons_of_mem _ h)
      · rintro (h | h)
        · exact Or.inl h
        · rcases List.mem_cons.mp h with rfl | h
          · exact Or.inl hx
          · exact Or.inr h
    · rw [if_neg hx]
      simp [List.mem_append, List.mem_cons, or_assoc]

/-- A Python set stays duplicate-free under `update`. -/
theorem nodup_setUpdate (new : List String) : ∀ (s : List String),
    s.Nodup → (setUpdate s new).Nodup := by
  induction new with
  | nil => intro s h; exact h
  | cons x rest ih =>
    intro s h
    have hstep : setUpdate s (x :: rest) =
        setUpdate (if x ∈ s then s else s ++ [x]) rest := rfl
    rw [hstep]
    apply ih
    by_cases hx : x ∈ s
    · simpa [hx] using h
    · simp [hx, List.nodup_append, h]

/-- Invariant of the `get_activity_summary` accumulation loop: the running
totals add the per-commit insertions/deletions, and the running file set
collects exactly the union of the changed-file lists, without duplicates. -/
theorem summary_foldl (commits : List CommitInfo) :
    ∀ (s0 : List String) (i0 d0 : Nat),
    (commits.foldl summaryStep (s0, i0, d0)).2.1 =
      i0 + (commits.map (fun c => c.insertions)).sum ∧
    (commits.foldl summaryStep (s0, i0, d0)).2.2 =
      d0 + (commits.map (fun c => c.deletions)).sum ∧
    (∀ f, f ∈ (commits.foldl summaryStep (s0, i0, d0)).1 ↔
      f ∈ s0 ∨ ∃ c ∈ commits, f ∈ c.files_changed) ∧
    (s0.Nodup → (commits.foldl summaryStep (s0, i0, d0)).1.Nodup) := by
  induction commits with
  | nil =>
    intro s0 i0 d0
    refine ⟨by simp, by simp, fun f => by simp, fun h => h⟩
  | cons c rest ih =>
    intro s0 i0 d0
    have h := ih (setUpdate s0 c.files_changed) (i0 + c.insertions)
      (d0 + c.deletions)
    have hfold : (c :: rest).foldl summaryStep (s0, i0, d0) =
        rest.foldl summaryStep
          (setUpdate s0 c.files_changed, i0 + c.insertions, d0 + c.deletions) :=
      rfl
    refine ⟨?_, ?_, ?_, ?_⟩
    · rw [hfold, h.1]
      simp [Nat.add_assoc]
    · rw [hfold, h.2.1]
      simp [Nat.add_assoc]
    · intro f
      rw [hfold, h.2.2.1 f, mem_setUpdate]
      constructor
      · rintro ((h1 | h1) | ⟨x, hx, hfx⟩)
        · exact Or.inl h1
        · exact Or.inr ⟨c, List.mem_cons_self _ _, h1⟩
        · exact Or.inr ⟨x, List.mem_cons_of_mem _ hx, hfx⟩
      · rintro (h1 | ⟨x, hx, hfx⟩)
        · exact Or.inl (Or.inl h1)
        · rcases List.mem_cons.mp hx with rfl | hx2
          · exact Or.inl (Or.inr hfx)
          · exact Or.inr ⟨x, hx2, hfx⟩
    · intro hnd
      rw [hfold]
      exact h.2.2.2 (nodup_setUpdate _ _ hnd)

/-- Replacing a post's status by its current value is the identity. -/
theorem post_set_status_self {p : Post} {s : String} (h : p.status = s) :
    { p with status := s } = p := by
  rw [← h]

/-- The update loop finds a record when one with the id exists. -/
theorem update_first_isSome {post_id : String} (f : Post → Post) :
    ∀ {posts : List Post}, (∃ p ∈ posts, p.id = post_id) →
    (update_first post_id f posts).isSome = true := by
  intro posts h
  induction posts with
  | nil =>
    obtain ⟨p, hp, _⟩ := h
    exact absurd hp (List.not_mem_nil p)
  | cons q rest ih =>
    obtain ⟨p, hp, hid⟩ := h
    by_cases hq : (q.id == post_id) = true
    · simp [update_first, hq]
    · rcases List.mem_cons.mp hp with rfl | hp2
      · exact absurd (by simpa using hid) hq
      · have hrest := ih ⟨p, hp2, hid⟩
        cases hu : update_first post_id f rest with
        | none => rw [hu] at hrest; exact absurd hrest (by simp)
        | some rest2 => simp [update_first, hq, hu]

/-- If the update function fixes every record carrying the id, the loop
either finds nothing or returns the list unchanged. -/
theorem update_first_self {post_id : String} {f : Post → Post} :
    ∀ {posts : List Post}, (∀ p ∈ posts, p.id = post_id → f p = p) →
    update_first post_id f posts = none ∨
      update_first post_id f posts = some posts := by
  intro posts hf
  induction posts with
  | nil => exact Or.inl rfl
  | cons q rest ih =>
    by_cases hq : (q.id == post_id) = true
    · right
      simp only [update_first, if_pos hq]
      rw [hf q (List.mem_cons_self _ _) (by simpa using hq)]
    · rcases ih (fun p hp hid => hf p (List.mem_cons_of_mem _ hp) hid) with h | h
      · left
        simp [update_first, hq, h]
      · right
        simp [update_first, hq, h]

/-- A projection preserved by the update function on matching records is
preserved listwise by the update loop. -/
theorem update_first_proj {α : Type} (g : Post → α) {post_id : String}
    {f : Post → Post} : ∀ {posts posts2 : List Post},
    (∀ p ∈ posts, p.id = post_id → g (f p) = g p) →
    update_first post_id f posts = some posts2 →
    posts2.map g = posts.map g := by
  intro posts
  induction posts with
  | nil => intro posts2 _ h; exact absurd h (by simp [update_first])
  | cons q rest ih =>
    intro posts2 hg h
    by_cases hq : (q.id == post_id) = true
    · simp only [update_first, if_pos hq] at h
      injection h with h
      subst h
      simp [hg q (List.mem_cons_self _ _) (by simpa using hq)]
    · simp only [update_first, if_neg hq] at h
      cases hrest : update_first post_id f rest with
      | none => rw [hrest] at h; exact absurd h (by simp)
      | some rest2 =>
        rw [hrest] at h
        injection h with h
        subst h
        simp [ih (fun p hp hid => hg p (List.mem_cons_of_mem _ hp) hid) hrest]

/-- A file whose posts list is nonempty is exactly the document holding that
list. -/
theorem storePosts_ne_nil {file : Option StoreDoc} (h : storePosts file ≠ []) :
    file = some { posts := some (storePosts file) } := by
  cases file with
  | none => exact absurd rfl h
  | some d =>
    cases hd : d.posts with
    | none => exact absurd (by simp [storePosts, read_json, hd]) h
    | some l =>
      have hl : storePosts (some d) = l := by simp [storePosts, read_json, hd]
      rw [hl]
      cases d
      simp only [StoreDoc.mk.injEq] at hd ⊢
      rw [← hd]

/-- Lemma: `addToGroup` either leaves the key list unchanged (key already present)
or appends the new key at the end. -/
theorem addToGroup_keys (g : List (String × List CommitInfo)) (key : String)
    (c : CommitInfo) :
    (addToGroup g key c).map Prod.fst =
      if key ∈ g.map Prod.fst then g.map Prod.fst
      else g.map Prod.fst ++ [key] := by
  induction g with
  | nil => simp [addToGroup]
  | cons kv rest ih =>
    obtain ⟨k, l⟩ := kv
    by_cases hk : k = key
    · subst hk; simp [addToGroup]
    · simp only [addToGroup, if_neg hk, List.map_cons, ih, List.mem_cons]
      by_cases hmem : key ∈ rest.map Prod.fst
      · simp [hmem, Ne.symm hk]
      · simp [hmem, Ne.symm hk]

/-- Where a bucket of `addToGroup g key c` comes from, assuming the keys of
`g` are distinct. -/
theorem addToGroup_mem {g : List (String × List CommitInfo)} {key : String}
    {c : CommitInfo} {k : String} {l : List CommitInfo}
    (hnd : (g.map Prod.fst).Nodup) (h : (k, l) ∈ addToGroup g key c) :
    (k ≠ key ∧ (k, l) ∈ g) ∨
    (k = key ∧ ((∃ l0, (key, l0) ∈ g ∧ l = l0 ++ [c]) ∨
      (key ∉ g.map Prod.fst ∧ l = [c]))) := by
  induction g with
  | nil =>
    simp only [addToGroup, List.mem_singleton, Prod.mk.injEq] at h
    exact Or.inr ⟨h.1, Or.inr ⟨by simp, h.2⟩⟩
  | cons kv rest ih =>
    obtain ⟨k0, l0⟩ := kv
    simp only [List.map_cons, List.nodup_cons] at hnd
    by_cases hk : k0 = key
    · subst hk
      simp only [addToGroup, eq_self_iff_true, if_true, List.mem_cons,
        Prod.mk.injEq] at h
      rcases h with ⟨hk1, hl1⟩ | hmem
      · exact Or.inr ⟨hk1, Or.inl ⟨l0, List.mem_cons_self _ _, hl1⟩⟩
      · refine Or.inl ⟨?_, List.mem_cons_of_mem _ hmem⟩
        intro hkey; subst hkey
        exact hnd.1 (List.mem_map_of_mem Prod.fst hmem)
    · simp only [addToGroup, if_neg hk, List.mem_cons, Prod.mk.injEq] at h
      rcases h with ⟨hk1, hl1⟩ | hmem
      · subst hk1
        refine Or.inl ⟨hk, ?_⟩
        rw [hl1]
        exact List.mem_cons_self _ _
      · rcases ih hnd.2 hmem with ⟨hne, hold⟩ | ⟨hkey, hcase⟩
        · exact Or.inl ⟨hne, List.mem_cons_of_mem _ hold⟩
        · refine Or.inr ⟨hkey, ?_⟩
          rcases hcase with ⟨l1, hl1, hl2⟩ | ⟨hfresh, hl2⟩
          · exact Or.inl ⟨l1, List.mem_cons_of_mem _ hl1, hl2⟩
          · refine Or.inr ⟨?_, hl2⟩
            simp only [List.map_cons, List.mem_cons]
            rintro (hkk | hmm)
            · exact hk hkk.symm
            · exact hfresh hmm

/-- Invariant of the `group_commits_by_day` fold: given that `g` is the
grouping of `processed`, folding `pending` into it yields the grouping of
`processed ++ pending` — distinct keys, each bucket the input-order filter of
the commits with that key, and every commit's key present. -/
theorem group_foldl_inv (pending : List CommitInfo) :
    ∀ (processed : List CommitInfo) (g : List (String × List CommitInfo)),
    (g.map Prod.fst).Nodup →
    (∀ k l, (k, l) ∈ g → l = processed.filter (fun c => dateKey c.date == k)) →
    (∀ c ∈ processed, dateKey c.date ∈ g.map Prod.fst) →
    (((pending.foldl (fun groups c => addToGroup groups (dateKey c.date) c) g).map
        Prod.fst).Nodup ∧
     (∀ k l, (k, l) ∈
        pending.foldl (fun groups c => addToGroup groups (dateKey c.date) c) g →
        l = (processed ++ pending).filter (fun c => dateKey c.date == k)) ∧
     (∀ c ∈ processed ++ pending, dateKey c.date ∈
        (pending.foldl (fun groups c => addToGroup groups (dateKey c.date) c) g).map
          Prod.fst)) := by
  induction pending with
  | nil =>
    intro processed g hnd hb hc
    rw [List.append_nil]
    exact ⟨hnd, hb, hc⟩
  | cons c rest ih =>
    intro processed g hnd hb hc
    have hndStep : ((addToGroup g (dateKey c.date) c).map Prod.fst).Nodup := by
      rw [addToGroup_keys]
      by_cases hmem : dateKey c.date ∈ g.map Prod.fst
      · simpa [hmem] using hnd
      · simp [hmem, List.nodup_append, hnd]
    have hbStep : ∀ k l, (k, l) ∈ addToGroup g (dateKey c.date) c →
        l = (processed ++ [c]).filter (fun x => dateKey x.date == k) := by
      intro k l hmem
      rcases addToGroup_mem hnd hmem with ⟨hne, hold⟩ | ⟨hkey, hcase⟩
      · rw [hb k l hold, List.filter_append]
        have hfalse : (dateKey c.date == k) = false := by
          simpa using fun hcc => hne hcc.symm
        simp [hfalse]
      · subst hkey
        rcases hcase with ⟨l0, hl0, hl⟩ | ⟨hfresh, hl⟩
        · rw [hl, hb _ _ hl0, List.filter_append]
          simp
        · rw [hl, List.filter_append]
          have hnil :
              processed.filter (fun x => dateKey x.date == dateKey c.date) = [] := by
            rw [List.filter_eq_nil_iff]
            intro x hx hbeq
            have hxk : dateKey x.date = dateKey c.date := by simpa using hbeq
            exact hfresh (hxk ▸ hc x hx)
          simp [hnil]
    have hcStep : ∀ x ∈ processed ++ [c],
        dateKey x.date ∈ (addToGroup g (dateKey c.date) c).map Prod.fst := by
      intro x hx
      rw [addToGroup_keys]
      rcases List.mem_append.mp hx with hx | hx
      · have hxg := hc x hx
        by_cases hmem : dateKey c.date ∈ g.map Prod.fst
        · simpa [hmem] using hxg
        · simp only [if_neg hmem, List.mem_append]
          exact Or.inl hxg
      · rw [List.mem_singleton.mp hx]
        by_cases hmem : dateKey c.date ∈ g.map Prod.fst
        · simp [hmem]
        · simp [hmem]
    have hfold := ih (processed ++ [c]) (addToGroup g (dateKey c.date) c)
      hndStep hbStep hcStep
    rw [List.append_assoc, List.singleton_append] at hfold
    exact hfold

end Milestoner

namespace Milestoner

/-! ## Claims -/

/-- C10: when the scheduled-posts file is absent, the store read yields the
empty document and every store operation behaves as on an empty store: the
pending view returns count 0 (and no posts), `get_due_posts` returns the
empty list, and cancelling or marking any id returns a not-found failure. -/
theorem c10_absent_file_empty_store (now post_id url nowIso : String)
    (recs : List String) :
    read_json none = { posts := none } ∧
    (list_scheduled_posts none now recs).pending_posts = [] ∧
    (list_scheduled_posts none now recs).count = 0 ∧
    get_due_posts none now = [] ∧
    cancel_scheduled_post post_id none =
      (.err ("Post " ++ post_id ++ " not found"), none) ∧
    mark_post_as_posted post_id url nowIso none =
      (.err ("Post " ++ post_id ++ " not found"), none) :=
  ⟨rfl, rfl, rfl, rfl, rfl, rfl⟩

/-- C2: the spec says `assess_current_time` at hour 23 returns quality
"poor" (the late-night avoid window), but the code's window test
`start <= hour < end` can never hold for the wrap-around window `(23, 6)`:
at hour 23 (here on Monday, weekday 0, and Wednesday, weekday 2) the code
returns the default "okay" assessment with score 5 instead. -/
theorem c2_hour23_returns_okay_not_poor :
    (assess_current_time 23 0).quality = "okay" ∧
    (assess_current_time 23 0).score = 5 ∧
    (assess_current_time 23 2).quality = "okay" ∧
    (assess_current_time 23 2).score = 5 ∧
    (assess_current_time 23 0).quality ≠ "poor" := by
  decide

/-- C6: cancelling a post id that is not in the store returns a not-found
failure and leaves the store file unchanged (nothing is written). -/
theorem c6_cancel_missing_id_not_found (file : Option StoreDoc) (post_id : String)
    (h : ∀ p ∈ storePosts file, p.id ≠ post_id) :
    cancel_scheduled_post post_id file =
      (.err ("Post " ++ post_id ++ " not found"), file) := by
  simp [cancel_scheduled_post, update_first_eq_none h]

/-- Witness for C6 at a store holding one post with a different id. -/
theorem c6_cancel_missing_id_not_found_witness :
    cancel_scheduled_post "42" (some { posts := some [pWitness] }) =
      (.err ("Post " ++ "42" ++ " not found"), some { posts := some [pWitness] }) :=
  c6_cancel_missing_id_not_found (some { posts := some [pWitness] }) "42" (by decide)

/-- C5: scheduling content longer than the target platform's character limit
fails with the content-too-long error and returns the store file unchanged
(no record is appended). -/
theorem c5_content_too_long_rejected (env : Env) (content : String)
    (scheduled_for platform? : Option String) (use_optimal_time : Bool)
    (file : Option StoreDoc) (limit : Nat)
    (hplat : PLATFORMS.lookup (platform?.getD env.defaultPlatform) = some limit)
    (hlen : limit < content.length) :
    schedule_post env content scheduled_for platform? use_optimal_time file =
      (.err ("Content exceeds " ++ toString limit ++ " character limit"), file) := by
  simp only [schedule_post, hplat, if_pos hlen]

/-- Witness for C5: a 301-character post for bluesky (limit 300) is rejected
and the (absent) store stays absent. -/
theorem c5_content_too_long_rejected_witness :
    schedule_post envWitness (String.mk (List.replicate 301 'a')) none
        (some "bluesky") false none =
      (.err ("Content exceeds " ++ toString 300 ++ " character limit"), none) :=
  c5_content_too_long_rejected envWitness (String.mk (List.replicate 301 'a'))
    none (some "bluesky") false none 300 rfl
    (by show 300 < (List.replicate 301 'a').length
        rw [List.length_replicate]; omega)

/-- C9: when `use_optimal_time` is set (or no explicit time is given) and the
content passes the platform checks, `schedule_post` fails with the
no-optimal-time error and stores nothing if the advisor yields zero
recommendations, and otherwise schedules for the advisor's first
recommendation, appending exactly that record. -/
theorem c9_optimal_time_selection (env : Env) (content : String)
    (scheduled_for platform? : Option String) (use_optimal_time : Bool)
    (file : Option StoreDoc) (limit : Nat)
    (hplat : PLATFORMS.lookup (platform?.getD env.defaultPlatform) = some limit)
    (hlen : ¬ limit < content.length)
    (hopt : use_optimal_time = true ∨ scheduled_for = none) :
    (env.recommendations = [] →
      schedule_post env content scheduled_for platform? use_optimal_time file =
        (.err "No optimal times available. Please specify a time.", file)) ∧
    (∀ r rest, env.recommendations = r :: rest →
      schedule_post env content scheduled_for platform? use_optimal_time file =
        (.ok { id := env.nowId, content := content,
               platform := platform?.getD env.defaultPlatform,
               scheduled_for := r, created_at := env.nowIso,
               status := "scheduled" }
             ("Post scheduled for " ++ r),
         some { posts := some (storePosts file ++
           [{ id := env.nowId, content := content,
              platform := platform?.getD env.defaultPlatform,
              scheduled_for := r, created_at := env.nowIso,
              status := "scheduled" }]) })) := by
  have hcond : (use_optimal_time || scheduled_for.isNone) = true := by
    rcases hopt with h | h <;> simp [h]
  constructor
  · intro hrec
    simp [schedule_post, hplat, hlen, hcond, hrec]
  · intro r rest hrec
    simp [schedule_post, hplat, hlen, hcond, hrec, schedule_append]

/-- Witness for C9: with an empty advisor output scheduling fails and the
absent store stays absent; with one recommendation the post lands on it. -/
theorem c9_optimal_time_selection_witness :
    (schedule_post envNoRecs "hello" none (some "bluesky") true none =
      (.err "No optimal times available. Please specify a time.", none)) ∧
    (schedule_post envWitness "hello" none (some "bluesky") true none =
      (.ok postW ("Post scheduled for " ++ "2025-01-15T10:00:00-05:00"),
       some { posts := some [postW] })) := by
  constructor
  · exact (c9_optimal_time_selection envNoRecs "hello" none (some "bluesky") true
      none 300 rfl (by decide) (Or.inl rfl)).1 rfl
  · exact (c9_optimal_time_selection envWitness "hello" none (some "bluesky") true
      none 300 rfl (by decide) (Or.inl rfl)).2
      "2025-01-15T10:00:00-05:00" [] rfl

/-- C4: every post returned by the pending view `list_scheduled_posts` has
status `"scheduled"` and a scheduled time that is not in the past (`now` is
at most the post's `scheduled_for` in the string order the code compares
with). -/
theorem c4_pending_view_scheduled_and_future (file : Option StoreDoc)
    (now : String) (recs : List String) :
    ∀ p ∈ (list_scheduled_posts file now recs).pending_posts,
      p.status = "scheduled" ∧ pyStrLe now p.scheduled_for = true := by
  intro p hp
  simp only [list_scheduled_posts, get_scheduled_posts, List.filter_filter,
    List.mem_filter, Bool.and_eq_true, Bool.or_eq_true, beq_iff_eq] at hp
  obtain ⟨-, hstat, hcond⟩ := hp
  refine ⟨hstat, ?_⟩
  rcases hcond with h | h
  · exact h
  · rw [hstat] at h
    exact absurd h (by decide)

/-- Witness for C4 at a store with one future scheduled post. -/
theorem c4_pending_view_scheduled_and_future_witness :
    pWitness.status = "scheduled" ∧
      pyStrLe "2025-06-01T00:00:00" pWitness.scheduled_for = true :=
  c4_pending_view_scheduled_and_future (some { posts := some [pWitness] })
    "2025-06-01T00:00:00" [] pWitness (by decide)

/-- C8: `"2 weeks"` resolves to a cutoff exactly 14 days before now; any
window string the parser cannot handle falls back to 7 days before now; and
month units resolve to 30 days per month. -/
theorem c8_parse_since_windows :
    (∀ now : Int, parse_since "2 weeks" now = now - 14 * daySecs) ∧
    (∀ (s : String) (now : Int), parse_since_ok s = false →
      parse_since s now = now - 7 * daySecs) ∧
    (∀ (s a u : String) (n now : Int),
      pySplit (pyStrip (pyLower s)) = [a, u] → pyInt a = some n →
      pyRstripS u = "month" → parse_since s now = now - n * 30 * daySecs) := by
  refine ⟨?_, ?_, ?_⟩
  · intro now
    have h : parse_since "2 weeks" now = now - 2 * 7 * daySecs := rfl
    rw [h]; ring_nf
  · intro s now h
    unfold parse_since_ok at h
    unfold parse_since
    cases hsp : pySplit (pyStrip (pyLower s)) with
    | nil => rfl
    | cons a tl =>
      cases tl with
      | nil => rfl
      | cons u tl2 =>
        cases tl2 with
        | cons v tl3 => rfl
        | nil =>
          rw [hsp] at h
          dsimp only at h ⊢
          cases hint : pyInt a with
          | none => rfl
          | some n =>
            rw [hint] at h
            simp only [Bool.or_eq_false_iff, decide_eq_false_iff_not] at h
            obtain ⟨⟨⟨h1, h2⟩, h3⟩, h4⟩ := h
            dsimp only
            rw [if_neg h1, if_neg h2, if_neg h3, if_neg h4]
  · intro s a u n now hsp hint hu
    unfold parse_since
    rw [hsp]
    dsimp only
    rw [hint]
    dsimp only
    rw [hu]
    simp

/-- Witness for C8 at `"2 weeks"`, the unparseable `"soon"`, and
`"3 months"`. -/
theorem c8_parse_since_windows_witness :
    parse_since "2 weeks" 0 = 0 - 14 * daySecs ∧
    parse_since "soon" 0 = 0 - 7 * daySecs ∧
    parse_since "3 months" 0 = 0 - 3 * 30 * daySecs :=
  ⟨c8_parse_since_windows.1 0,
   c8_parse_since_windows.2.1 "soon" 0 (by decide),
   c8_parse_since_windows.2.2 "3 months" "3" "months" 3 0 (by decide) (by decide)
     (by decide)⟩

/-- C7: `group_commits_by_day` is a partition.  Bucket keys are distinct;
each bucket equals the input-order filter of the commits whose own calendar
date is the bucket key (so every commit lands in exactly one bucket, keyed by
its own date, with input order preserved inside the bucket); and every
commit's date key is a bucket key. -/
theorem c7_group_by_day_partition (commits : List CommitInfo) :
    ((group_commits_by_day commits).map Prod.fst).Nodup ∧
    (∀ k l, (k, l) ∈ group_commits_by_day commits →
      l = commits.filter (fun c => dateKey c.date == k)) ∧
    (∀ c ∈ commits, dateKey c.date ∈ (group_commits_by_day commits).map Prod.fst) := by
  have h := group_foldl_inv commits [] [] (by simp) (by simp) (by simp)
  rw [List.nil_append] at h
  exact h

/-- Witness for C7 at a three-commit list with a repeated day. -/
theorem c7_group_by_day_partition_witness :
    [cJan1, cJan1] =
      [cJan1, cJan5, cJan1].filter (fun c => dateKey c.date == dateKey cJan1.date) ∧
    dateKey cJan5.date ∈
      (group_commits_by_day [cJan1, cJan5, cJan1]).map Prod.fst := by
  constructor
  · exact (c7_group_by_day_partition [cJan1, cJan5, cJan1]).2.1
      (dateKey cJan1.date) [cJan1, cJan1] (by decide)
  · exact (c7_group_by_day_partition [cJan1, cJan5, cJan1]).2.2 cJan5 (by decide)

/-- C3 counterexample: for the two-commit sequence `[cJan1, cJan5]` (newest
last, so not in the newest-first order `get_commits` produces), the summary's
`oldest` field is `cJan5.date` even though the strictly smaller timestamp
`cJan1.date` is in the set — so `oldest`/`newest` are not the
minimum/maximum of the timestamps, as the claim states. -/
theorem c3_counterexample :
    PyDateTime.ltB cJan1.date cJan5.date = true ∧
    cJan1.date = ([cJan1, cJan5].map (fun c => c.date))[0] ∧
    (get_activity_summary [cJan1, cJan5]).date_range =
      some { oldest := cJan5.date, newest := cJan1.date } := by
  decide

/-- C3 (amended): for every commit sequence the summary's count equals the
length, the insertion/deletion totals equal the sums over the records, and
the file list is the duplicate-free union of the records' changed files,
sorted by the string order; the empty sequence yields the zero-value summary;
and the date range holds the *last* record's timestamp as `oldest` and the
*first* record's as `newest` (these are the minimum/maximum only when the
input is ordered newest-first, as `get_commits` produces). -/
theorem c3_summary_amended (commits : List CommitInfo) :
    (commits = [] → get_activity_summary commits =
      { total_commits := 0, files_changed := [], total_insertions := 0,
        total_deletions := 0, date_range := none }) ∧
    (get_activity_summary commits).total_commits = commits.length ∧
    (get_activity_summary commits).total_insertions =
      (commits.map (fun c => c.insertions)).sum ∧
    (get_activity_summary commits).total_deletions =
      (commits.map (fun c => c.deletions)).sum ∧
    (get_activity_summary commits).files_changed.Nodup ∧
    List.Sorted strLeProp (get_activity_summary commits).files_changed ∧
    (∀ f, f ∈ (get_activity_summary commits).files_changed ↔
      ∃ c ∈ commits, f ∈ c.files_changed) ∧
    (∀ c rest, commits = c :: rest →
      (get_activity_summary commits).date_range =
        some { oldest := ((c :: rest).getLast (List.cons_ne_nil c rest)).date,
               newest := c.date }) := by
  haveI htot : IsTotal String strLeProp := ⟨pyStrLe_total⟩
  haveI htrans : IsTrans String strLeProp := ⟨fun a b c => pyStrLe_trans⟩
  cases commits with
  | nil =>
    refine ⟨fun _ => rfl, rfl, rfl, rfl, List.nodup_nil, List.sorted_nil, ?_, ?_⟩
    · intro f; simp [get_activity_summary]
    · intro c rest h; exact absurd h (by simp)
  | cons c rest =>
    have h := summary_foldl (c :: rest) [] 0 0
    refine ⟨fun habs => absurd habs (by simp), rfl, ?_, ?_, ?_, ?_, ?_, ?_⟩
    · show ((c :: rest).foldl summaryStep ([], 0, 0)).2.1 = _
      rw [h.1]
      simp
    · show ((c :: rest).foldl summaryStep ([], 0, 0)).2.2 = _
      rw [h.2.1]
      simp
    · show (List.insertionSort strLeProp
        ((c :: rest).foldl summaryStep ([], 0, 0)).1).Nodup
      exact ((List.perm_insertionSort strLeProp _).nodup_iff).mpr
        (h.2.2.2 List.nodup_nil)
    · show List.Sorted strLeProp (List.insertionSort strLeProp
        ((c :: rest).foldl summaryStep ([], 0, 0)).1)
      exact List.sorted_insertionSort strLeProp _
    · intro f
      show f ∈ List.insertionSort strLeProp
        ((c :: rest).foldl summaryStep ([], 0, 0)).1 ↔ _
      rw [List.Perm.mem_iff (List.perm_insertionSort strLeProp _), h.2.2.1 f]
      simp
    · intro c' rest' heq
      cases heq
      rfl

/-- Witness for C3 (amended) at the singleton commit list. -/
theorem c3_summary_amended_witness :
    (get_activity_summary [cJan1]).date_range =
      some { oldest := cJan1.date, newest := cJan1.date } ∧
    ("a.py" ∈ (get_activity_summary [cJan1]).files_changed ↔
      ∃ c ∈ [cJan1], "a.py" ∈ c.files_changed) := by
  constructor
  · exact (c3_summary_amended [cJan1]).2.2.2.2.2.2.2 cJan1 [] rfl
  · exact (c3_summary_amended [cJan1]).2.2.2.2.2.2.1 "a.py"

/-- C1 counterexample: against a store holding one post whose status is the
terminal `"posted"`, `cancel_scheduled_post` on its id does not return a
not-found failure and is not a status-preserving no-op: it succeeds and
overwrites the status with `"cancelled"`. -/
theorem c1_counterexample :
    pPosted.status = "posted" ∧
    (cancel_scheduled_post "1" (some { posts := some [pPosted] })).1.success
      = true ∧
    storePosts (cancel_scheduled_post "1" (some { posts := some [pPosted] })).2 =
      [{ pPosted with status := "cancelled" }] ∧
    { pPosted with status := "cancelled" } ≠ pPosted := by
  decide

/-- C1 (amended): posts in a terminal state are never returned by
`get_due_posts` (every due post has status `"scheduled"`); a repeated call of
the *same* operation leaves the store's statuses unchanged (`cancel` on an
already-cancelled id rewrites the store identically, `mark_posted` on an
already-posted id preserves every id/status pair); but the operations do not
guard the terminal states: whenever any record carries the id, `cancel` and
`mark_posted` both succeed, so a cross call overwrites a terminal status
rather than failing with not-found. -/
theorem c1_terminal_state_behaviour (file : Option StoreDoc)
    (now post_id url nowIso : String) :
    (∀ p ∈ get_due_posts file now, p.status = "scheduled") ∧
    ((∀ p ∈ storePosts file, p.id = post_id → p.status = "cancelled") →
      (cancel_scheduled_post post_id file).2 = file) ∧
    ((∀ p ∈ storePosts file, p.id = post_id → p.status = "posted") →
      (storePosts (mark_post_as_posted post_id url nowIso file).2).map
          (fun p => (p.id, p.status)) =
        (storePosts file).map (fun p => (p.id, p.status))) ∧
    ((∃ p ∈ storePosts file, p.id = post_id) →
      (cancel_scheduled_post post_id file).1.success = true ∧
      (mark_post_as_posted post_id url nowIso file).1.success = true) := by
  refine ⟨?_, ?_, ?_, ?_⟩
  · intro p hp
    simp only [get_due_posts, List.mem_filter, Bool.and_eq_true, beq_iff_eq] at hp
    exact hp.2.1
  · intro hall
    have hf : ∀ p ∈ storePosts file, p.id = post_id → cancelUpdater p = p :=
      fun p hp hid => post_set_status_self (hall p hp hid)
    rcases update_first_self hf with h | h
    · simp [cancel_scheduled_post, h]
    · have hne : storePosts file ≠ [] := by
        intro hnil
        rw [hnil] at h
        exact absurd h (by simp [update_first])
      simp only [cancel_scheduled_post, h]
      exact (storePosts_ne_nil hne).symm
  · intro hall
    cases hu : update_first post_id (markUpdater url nowIso)
        (storePosts file) with
    | none => simp [mark_post_as_posted, hu]
    | some posts2 =>
      have hg : ∀ p ∈ storePosts file, p.id = post_id →
          ((markUpdater url nowIso p).id, (markUpdater url nowIso p).status) =
            (p.id, p.status) := by
        intro p hp hid
        simp [markUpdater, hall p hp hid]
      have hproj := update_first_proj (fun p => (p.id, p.status)) hg hu
      simp only [mark_post_as_posted, hu]
      exact hproj
  · rintro ⟨p, hp, hid⟩
    constructor
    · have hsome := update_first_isSome cancelUpdater ⟨p, hp, hid⟩
      cases hu : update_first post_id cancelUpdater (storePosts file) with
      | none => rw [hu] at hsome; exact absurd hsome (by simp)
      | some posts2 => simp [cancel_scheduled_post, hu, OpResult.success]
    · have hsome := update_first_isSome (markUpdater url nowIso) ⟨p, hp, hid⟩
      cases hu : update_first post_id (markUpdater url nowIso)
          (storePosts file) with
      | none => rw [hu] at hsome; exact absurd hsome (by simp)
      | some posts2 => simp [mark_post_as_posted, hu, OpResult.success]

/-- Witness for C1 (amended): a posted record never shows up in the due list,
and cancelling an already-cancelled post rewrites the store identically. -/
theorem c1_terminal_state_behaviour_witness :
    pPosted ∉ get_due_posts (some { posts := some [pPosted] })
      "2030-01-01T00:00:00" ∧
    (cancel_scheduled_post "1" (some { posts := some [pCancelled] })).2 =
      some { posts := some [pCancelled] } := by
  constructor
  · intro hmem
    have h := (c1_terminal_state_behaviour (some { posts := some [pPosted] })
      "2030-01-01T00:00:00" "1" "u" "2030-01-02T00:00:00").1 pPosted hmem
    exact absurd h (by decide)
  · exact (c1_terminal_state_behaviour (some { posts := some [pCancelled] })
      "2030-01-01T00:00:00" "1" "u" "2030-01-02T00:00:00").2.1 (by decide)

end Milestoner
